import Mathlib

/-!
Verification of the permission-resolution core of the `@connectaryal/rbac`
repository (`src/core/rbac.ts`), against its natural-language specification.

The TypeScript class keeps three pieces of state: a `Set` of directly
granted permissions, a `Set` of assigned roles, and a plain object mapping
role names to arrays of permissions.  JavaScript `Set`s keep unique
elements in insertion order, so we model them as duplicate-free
`List String` values built with an insert-if-absent operation; the role
definition object is modelled as an association list with unique keys.

The specification additionally describes a richer variant of the class
holding a global restriction set, a sector-scoped restriction mapping and
an active sector; that variant's source file is not part of the
repository snapshot, so those fields and the operations touching them are
modelled from the specification text (each marked in its doc comment).
-/

namespace RBAC

/-- JS `Set.prototype.add`: appends the element unless already a member
(sets keep unique elements in insertion order). -/
def setAdd (s : List String) (x : String) : List String :=
  if x ∈ s then s else s ++ [x]

/-- JS `Set.prototype.delete`: removes the element if present. -/
def setDelete (s : List String) (x : String) : List String :=
  s.filter (fun y => y != x)

/-- JS `new Set(list)`: builds a set from a list, dropping duplicates and
keeping first-occurrence order. -/
def setOf (l : List String) : List String :=
  l.foldl setAdd []

/-- Role definitions: a JS object mapping role names to permission arrays,
modelled as an association list with unique keys. -/
abbrev RoleDefs := List (String × List String)

/-- JS property read `d[r]`: the permission list bound to role `r`, if any. -/
def lookupRD (d : RoleDefs) (r : String) : Option (List String) :=
  (d.find? (fun e => e.1 == r)).map (fun e => e.2)

/-- JS property write `d[r] = ps`: replaces the binding for `r` in place
(object keys are unique), or appends a new binding at the end. -/
def updateRD : RoleDefs → String → List String → RoleDefs
  | [], r, ps => [(r, ps)]
  | e :: t, r, ps => if e.1 == r then (r, ps) :: t else e :: updateRD t r ps

/-- JS `delete d[r]`: removes the binding for `r`. -/
def deleteRD (d : RoleDefs) (r : String) : RoleDefs :=
  d.filter (fun e => e.1 != r)

/-- State of one resolver instance.  `permissions`, `roles` and
`roleDefinitions` are the three private fields of `RoleBasedAccessControl`
in `src/core/rbac.ts`.  `restrictions`, `activeSector` and
`sectorRestrictions` are modelled from the spec: the richer variant's
global deny-list, current sector and per-sector deny-lists (its source
file is absent from the snapshot). -/
structure PermissionResolver where
  permissions : List String
  roles : List String
  roleDefinitions : RoleDefs
  restrictions : List String
  activeSector : Option String
  sectorRestrictions : RoleDefs

namespace PermissionResolver

/-- Constructor: each configuration entry defaults to empty / absent, and
list entries are poured into fresh `Set`s (`new Set(config.permissions ?? [])`).
The restriction-side arguments are modelled from the spec (richer
variant's configuration). -/
def ofConfig (perms : List String) (roles : List String) (defs : RoleDefs)
    (restr : List String) (sector : Option String) (sdefs : RoleDefs) :
    PermissionResolver :=
  { permissions := setOf perms
    roles := setOf roles
    roleDefinitions := defs
    restrictions := setOf restr
    activeSector := sector
    sectorRestrictions := sdefs }

/-- `getPermissions()`: copy of the direct permission set. -/
def getPermissions (s : PermissionResolver) : List String :=
  s.permissions

/-- `getAllPermissions()`: a fresh set seeded with the direct permissions,
then every permission of every assigned role is added (a role missing from
the definitions contributes `[]`). -/
def getAllPermissions (s : PermissionResolver) : List String :=
  s.roles.foldl
    (fun acc role => ((lookupRD s.roleDefinitions role).getD []).foldl setAdd acc)
    s.permissions

/-- `setPermissions(list)`: replace the direct permission set. -/
def setPermissions (s : PermissionResolver) (l : List String) : PermissionResolver :=
  { s with permissions := setOf l }

/-- `addPermissions(list)`: `forEach` add into the direct permission set. -/
def addPermissions (s : PermissionResolver) (l : List String) : PermissionResolver :=
  { s with permissions := l.foldl setAdd s.permissions }

/-- `removePermissions(list)`: `forEach` delete from the direct permission set. -/
def removePermissions (s : PermissionResolver) (l : List String) : PermissionResolver :=
  { s with permissions := l.foldl setDelete s.permissions }

/-- `getRoles()`: copy of the assigned role set. -/
def getRoles (s : PermissionResolver) : List String :=
  s.roles

/-- `setRoles(list)`: replace the role set. -/
def setRoles (s : PermissionResolver) (l : List String) : PermissionResolver :=
  { s with roles := setOf l }

/-- `addRoles(list)`: `forEach` add into the role set. -/
def addRoles (s : PermissionResolver) (l : List String) : PermissionResolver :=
  { s with roles := l.foldl setAdd s.roles }

/-- `removeRoles(list)`: `forEach` delete from the role set. -/
def removeRoles (s : PermissionResolver) (l : List String) : PermissionResolver :=
  { s with roles := l.foldl setDelete s.roles }

/-- `hasRole(role)`: `this.roles.has(role)`. -/
def hasRole (s : PermissionResolver) (r : String) : Bool :=
  decide (r ∈ s.roles)

/-- `getRoleDefinitions()`: shallow copy of the role definition mapping. -/
def getRoleDefinitions (s : PermissionResolver) : RoleDefs :=
  s.roleDefinitions

/-- `setRoleDefinitions(definitions)`: wholesale replacement of the
role definition mapping. -/
def setRoleDefinitions (s : PermissionResolver) (d : RoleDefs) : PermissionResolver :=
  { s with roleDefinitions := d }

/-- `defineRole(role, permissions)`: auto-assigns the role when absent
(`if (!this.hasRole(role)) this.addRoles([role])`), then rebinds its
definition. -/
def defineRole (s : PermissionResolver) (r : String) (ps : List String) :
    PermissionResolver :=
  let s1 := if s.hasRole r then s else s.addRoles [r]
  { s1 with roleDefinitions := updateRD s1.roleDefinitions r ps }

/-- `removeRoleDefinition(role)`: `delete this.roleDefinitions[role]`. -/
def removeRoleDefinition (s : PermissionResolver) (r : String) : PermissionResolver :=
  { s with roleDefinitions := deleteRD s.roleDefinitions r }

/-- `getRolePermissions(role)`: `this.roleDefinitions[role] ?? []`. -/
def getRolePermissions (s : PermissionResolver) (r : String) : List String :=
  (lookupRD s.roleDefinitions r).getD []

/-- The grant side of `hasPermission` as written in `src/core/rbac.ts`
(lines 195 to 210): direct membership first, then each assigned role's
definition (`?? []`) is scanned with `includes`. -/
def effectiveGrant (s : PermissionResolver) (p : String) : Bool :=
  decide (p ∈ s.permissions) ||
    s.roles.any (fun role => decide (p ∈ (lookupRD s.roleDefinitions role).getD []))

/-- Modelled from the spec: the richer variant's `hasPermission` (its
source file is absent from the snapshot).  Effective allow =
EffectiveGrant(P) AND NOT (P in Restrictions) AND NOT (ActiveSector is set
AND P in SectorRestrictions[ActiveSector]); the grant side is the
`hasPermission` of `src/core/rbac.ts`. -/
def hasPermission (s : PermissionResolver) (p : String) : Bool :=
  s.effectiveGrant p &&
    !(decide (p ∈ s.restrictions)) &&
    !(match s.activeSector with
      | some sec => decide (p ∈ (lookupRD s.sectorRestrictions sec).getD [])
      | none => false)

/-- `can(perms, every)`: a single permission goes straight to
`hasPermission`; a list is checked with `every`/`some` according to the
flag.  The TS default for `every` is `true` (ALL). -/
def can (s : PermissionResolver) (perms : String ⊕ List String) (every : Bool) : Bool :=
  match perms with
  | Sum.inl p => s.hasPermission p
  | Sum.inr ps =>
    if every then ps.all (fun p => s.hasPermission p)
    else ps.any (fun p => s.hasPermission p)

/-- `can(perms)` with the default flag value `every = true`. -/
def canD (s : PermissionResolver) (perms : String ⊕ List String) : Bool :=
  s.can perms true

/-- `hasRoles(roles, every)`: a single role goes straight to `hasRole`; a
list is checked with `every`/`some` according to the flag.  The TS
default for `every` is `false` (ANY). -/
def hasRoles (s : PermissionResolver) (roles : String ⊕ List String) (every : Bool) : Bool :=
  match roles with
  | Sum.inl r => s.hasRole r
  | Sum.inr rs =>
    if every then rs.all (fun r => s.hasRole r)
    else rs.any (fun r => s.hasRole r)

/-- `hasRoles(roles)` with the default flag value `every = false`. -/
def hasRolesD (s : PermissionResolver) (roles : String ⊕ List String) : Bool :=
  s.hasRoles roles false

/-- Modelled from the spec: `setSector(s)` of the richer variant (absent
from the snapshot) changes the active sector, possibly to none, with no
validation. -/
def setSector (s : PermissionResolver) (sec : Option String) : PermissionResolver :=
  { s with activeSector := sec }

end PermissionResolver

theorem mem_setAdd {s : List String} {x y : String} :
    x ∈ setAdd s y ↔ x ∈ s ∨ x = y := by
  unfold setAdd
  by_cases h : y ∈ s
  · simp only [if_pos h]
    constructor
    · exact Or.inl
    · rintro (hx | rfl)
      · exact hx
      · exact h
  · simp [if_neg h]

theorem mem_foldl_setAdd {l : List String} {s : List String} {x : String} :
    x ∈ l.foldl setAdd s ↔ x ∈ s ∨ x ∈ l := by
  induction l generalizing s with
  | nil => simp
  | cons y t ih =>
    simp only [List.foldl_cons, ih, mem_setAdd, List.mem_cons]
    tauto

theorem foldl_setAdd_eq_self {l s : List String} (h : ∀ x ∈ l, x ∈ s) :
    l.foldl setAdd s = s := by
  induction l with
  | nil => rfl
  | cons y t ih =>
    have hy : y ∈ s := h y (List.mem_cons_self y t)
    simp only [List.foldl_cons, setAdd, if_pos hy]
    exact ih (fun x hx => h x (List.mem_cons_of_mem y hx))

theorem setDelete_eq_self {s : List String} {x : String} (h : x ∉ s) :
    setDelete s x = s := by
  unfold setDelete
  apply List.filter_eq_self.mpr
  intro a ha
  have : a ≠ x := fun hax => h (hax ▸ ha)
  simpa [bne_iff_ne]

theorem lookupRD_updateRD_self (d : RoleDefs) (r : String) (ps : List String) :
    lookupRD (updateRD d r ps) r = some ps := by
  induction d with
  | nil => simp [updateRD, lookupRD]
  | cons e t ih =>
    by_cases h : e.1 == r
    · simp [updateRD, lookupRD, h]
    · simp only [updateRD, if_neg h]
      simpa [lookupRD, List.find?, h] using ih

theorem effectiveGrant_iff (s : PermissionResolver) (p : String) :
    s.effectiveGrant p = true ↔
      p ∈ s.permissions ∨ ∃ r ∈ s.roles, p ∈ s.getRolePermissions r := by
  unfold PermissionResolver.effectiveGrant PermissionResolver.getRolePermissions
  simp [List.any_eq_true]

theorem hasPermission_iff (s : PermissionResolver) (p : String) :
    s.hasPermission p = true ↔
      ((p ∈ s.permissions ∨ ∃ r ∈ s.roles, p ∈ s.getRolePermissions r) ∧
        p ∉ s.restrictions ∧
        (s.activeSector = none ∨
          ∃ sec, s.activeSector = some sec ∧
            p ∉ (lookupRD s.sectorRestrictions sec).getD [])) := by
  unfold PermissionResolver.hasPermission
  cases h : s.activeSector with
  | none => simp [h, effectiveGrant_iff]
  | some sec =>
    simp only [h, Bool.and_eq_true, Bool.not_eq_true', decide_eq_false_iff_not,
      effectiveGrant_iff, Option.some_inj, reduceCtorEq, false_or]
    constructor
    · rintro ⟨⟨hg, hr⟩, hs⟩
      exact ⟨hg, hr, sec, rfl, hs⟩
    · rintro ⟨hg, hr, sec2, rfl, hs⟩
      exact ⟨⟨hg, hr⟩, hs⟩

/-- Claim C1: for every state and permission `x`, `hasPermission x` is
true iff `x` is directly granted or granted by some assigned role (a role
missing from the definitions grants nothing), and `x` is not in the
global restriction set, and either no sector is active or `x` is not in
the active sector's restriction list. -/
theorem hasPermission_resolution (s : PermissionResolver) (x : String) :
    s.hasPermission x = true ↔
      ((x ∈ s.permissions ∨ ∃ r ∈ s.roles, x ∈ (lookupRD s.roleDefinitions r).getD []) ∧
        x ∉ s.restrictions ∧
        (s.activeSector = none ∨
          ∃ sec, s.activeSector = some sec ∧
            x ∉ (lookupRD s.sectorRestrictions sec).getD [])) :=
  hasPermission_iff s x

/-- Claim C2: a resolver built with direct permission `delete` and global
restriction `delete` denies `delete` through `hasPermission` while
`getAllPermissions` still contains it; in general any globally restricted
permission is denied by `hasPermission` even when granted, and
`getAllPermissions` does not depend on the restriction state at all. -/
theorem restriction_precedence :
    ((PermissionResolver.ofConfig ["delete"] [] [] ["delete"] none
        []).hasPermission "delete" = false ∧
      "delete" ∈ (PermissionResolver.ofConfig ["delete"] [] [] ["delete"] none
        []).getAllPermissions) ∧
    (∀ (s : PermissionResolver) (x : String),
      x ∈ s.restrictions → s.hasPermission x = false) ∧
    (∀ (s : PermissionResolver) (l : List String) (a : Option String) (m : RoleDefs),
      PermissionResolver.getAllPermissions
          { s with restrictions := l, activeSector := a, sectorRestrictions := m } =
        s.getAllPermissions) := by
  refine ⟨⟨by decide, by decide⟩, ?_, fun s l a m => rfl⟩
  intro s x hx
  simp [PermissionResolver.hasPermission, hx]

/-- Claim C2 witness: the universally quantified part of the claim applied
to a concrete restricted permission. -/
theorem restriction_precedence_witness :
    (PermissionResolver.ofConfig [] [] [] ["x"] none []).hasPermission "x" = false :=
  restriction_precedence.2.1 (PermissionResolver.ofConfig [] [] [] ["x"] none [])
    "x" (by decide)

/-- Claim C3: with sector `finance` active and `delete` in its
restriction list, an `admin`-granted `delete` is denied; switching the
sector to `it` with `setSector` makes the very next query allow it. -/
theorem setSector_immediate :
    (PermissionResolver.ofConfig [] ["admin"] [("admin", ["delete"])] []
        (some "finance") [("finance", ["delete"]), ("it", [])]).hasPermission
        "delete" = false ∧
    ((PermissionResolver.ofConfig [] ["admin"] [("admin", ["delete"])] []
        (some "finance") [("finance", ["delete"]), ("it", [])]).setSector
        (some "it")).hasPermission "delete" = true := by
  exact ⟨by decide, by decide⟩

/-- Claim C4: `can` on a single permission agrees with `hasPermission`
(whatever the flag, and in particular at its default `true`); on a list,
the `ALL` mode is the universal check and the `ANY` mode the existential
one, so the empty list yields `true` under `ALL` and `false` under
`ANY`. -/
theorem can_semantics (s : PermissionResolver) (p : String) (ps : List String) :
    s.can (Sum.inl p) true = s.hasPermission p ∧
    s.can (Sum.inl p) false = s.hasPermission p ∧
    s.canD (Sum.inl p) = s.hasPermission p ∧
    (s.can (Sum.inr ps) true = true ↔ ∀ q ∈ ps, s.hasPermission q = true) ∧
    (s.can (Sum.inr ps) false = true ↔ ∃ q ∈ ps, s.hasPermission q = true) ∧
    s.can (Sum.inr []) true = true ∧
    s.can (Sum.inr []) false = false := by
  refine ⟨rfl, rfl, rfl, ?_, ?_, rfl, rfl⟩
  · simp [PermissionResolver.can, List.all_eq_true]
  · simp [PermissionResolver.can, List.any_eq_true]

/-- Claim C6: `defineRole r ps` rebinds the definition of `r` to `ps`
(replacing any prior binding), auto-assigns `r` when it was not yet in the
role set, and leaves the role set unchanged when it already was; other
bindings and the direct permission set are untouched. -/
theorem defineRole_spec (s : PermissionResolver) (r : String) (ps : List String) :
    (s.defineRole r ps).getRolePermissions r = ps ∧
    (s.defineRole r ps).roles = (if r ∈ s.roles then s.roles else s.roles ++ [r]) ∧
    (s.defineRole r ps).permissions = s.permissions := by
  refine ⟨?_, ?_, ?_⟩
  · show (lookupRD (updateRD _ r ps) r).getD [] = ps
    by_cases hr : r ∈ s.roles <;>
      simp [PermissionResolver.defineRole, PermissionResolver.hasRole, hr,
        lookupRD_updateRD_self]
  · by_cases hr : r ∈ s.roles <;>
      simp [PermissionResolver.defineRole, PermissionResolver.hasRole,
        PermissionResolver.addRoles, setAdd, hr]
  · by_cases hr : r ∈ s.roles <;>
      simp [PermissionResolver.defineRole, PermissionResolver.hasRole,
        PermissionResolver.addRoles, hr]

/-- Claim C7: `hasRole` is raw role-set membership, unaffected by the
restriction state; `hasRoles` uses the same ALL/ANY semantics as `can`
(single argument delegating to `hasRole`), and its default flag is ANY
(`false`) whereas `can`'s default flag is ALL (`true`). -/
theorem hasRoles_semantics (s : PermissionResolver) (r : String)
    (rs : List String) (e : Bool) (l : List String) (a : Option String)
    (m : RoleDefs) (q : String ⊕ List String) :
    (s.hasRole r = true ↔ r ∈ s.roles) ∧
    (PermissionResolver.hasRole
        { s with restrictions := l, activeSector := a, sectorRestrictions := m } r =
      s.hasRole r) ∧
    (s.hasRoles (Sum.inl r) e = s.hasRole r) ∧
    (s.hasRoles (Sum.inr rs) true = true ↔ ∀ x ∈ rs, x ∈ s.roles) ∧
    (s.hasRoles (Sum.inr rs) false = true ↔ ∃ x ∈ rs, x ∈ s.roles) ∧
    (s.hasRolesD q = s.hasRoles q false) ∧
    (s.canD q = s.can q true) := by
  refine ⟨by simp [PermissionResolver.hasRole], rfl, rfl, ?_, ?_, rfl, rfl⟩
  · simp [PermissionResolver.hasRoles, PermissionResolver.hasRole, List.all_eq_true]
  · simp [PermissionResolver.hasRoles, PermissionResolver.hasRole, List.any_eq_true]

/-- Claim C8: adding the same permission list twice leaves the direct
permission set exactly as after one addition, and removing a permission
that is not in the set leaves the whole state unchanged. -/
theorem addPermissions_idem (s : PermissionResolver) (l : List String)
    (x : String) (hx : x ∉ s.permissions) :
    (s.addPermissions l).addPermissions l = s.addPermissions l ∧
    s.removePermissions [x] = s := by
  constructor
  · show PermissionResolver.mk (l.foldl setAdd (l.foldl setAdd s.permissions))
        s.roles s.roleDefinitions s.restrictions s.activeSector s.sectorRestrictions =
      PermissionResolver.mk (l.foldl setAdd s.permissions) s.roles
        s.roleDefinitions s.restrictions s.activeSector s.sectorRestrictions
    rw [foldl_setAdd_eq_self (fun y hy => mem_foldl_setAdd.mpr (Or.inr hy))]
  · show PermissionResolver.mk ([x].foldl setDelete s.permissions) s.roles
        s.roleDefinitions s.restrictions s.activeSector s.sectorRestrictions = s
    rw [List.foldl_cons, List.foldl_nil, setDelete_eq_self hx]

/-- Claim C8 witness: the idempotence and absent-removal facts at a
concrete state. -/
theorem addPermissions_idem_witness :
    (((PermissionResolver.ofConfig [] [] [] [] none []).addPermissions
          ["read"]).addPermissions ["read"] =
        (PermissionResolver.ofConfig [] [] [] [] none []).addPermissions ["read"]) ∧
    (PermissionResolver.ofConfig [] [] [] [] none []).removePermissions ["z"] =
      PermissionResolver.ofConfig [] [] [] [] none [] :=
  addPermissions_idem (PermissionResolver.ofConfig [] [] [] [] none [])
    ["read"] "z" (by decide)

/-- Claim C9: the resolver exposes `getRoles`, returning a copy of the
assigned role set, and `hasRole r` holds exactly when `r` is a member of
the collection `getRoles` returns. -/
theorem getRoles_hasRole (s : PermissionResolver) (r : String) :
    s.getRoles = s.roles ∧ (s.hasRole r = true ↔ r ∈ s.getRoles) :=
  ⟨rfl, by simp [PermissionResolver.hasRole, PermissionResolver.getRoles]⟩

/-- Claim C10: `setRoleDefinitions d` wholesale-replaces the mapping:
afterwards `getRolePermissions r` is `d[r]` (empty when `r` is unbound in
`d`, so previously defined roles absent from `d` grant nothing), and
`hasPermission` immediately resolves role-derived grants against `d`. -/
theorem setRoleDefinitions_replace (s : PermissionResolver) (d : RoleDefs)
    (r p : String) :
    (s.setRoleDefinitions d).getRolePermissions r = (lookupRD d r).getD [] ∧
    ((s.setRoleDefinitions d).hasPermission p = true ↔
      ((p ∈ s.permissions ∨ ∃ rl ∈ s.roles, p ∈ (lookupRD d rl).getD []) ∧
        p ∉ s.restrictions ∧
        (s.activeSector = none ∨
          ∃ sec, s.activeSector = some sec ∧
            p ∉ (lookupRD s.sectorRestrictions sec).getD []))) :=
  ⟨rfl, hasPermission_iff (s.setRoleDefinitions d) p⟩

/-!
Arrays-as-references model, used to settle the copy-versus-live-view
question for `getRolePermissions`.  JavaScript arrays are heap objects
passed by reference: `getRolePermissions` returns
`this.roleDefinitions[role] ?? []`, i.e. the stored array itself when the
role is defined (only the `??` fallback allocates a fresh empty array).
The heap maps array references (indices) to array contents, and the
role-definition object binds each role name to the reference of its
permission array.
-/

/-- Resolver state in the reference model: the role-definition bindings
plus the shared heap of array contents. -/
structure RbacRefs where
  roleDefs : List (String × Nat)
  heap : List (List String)

/-- Dereference an array in the heap. -/
def readArr (h : List (List String)) (r : Nat) : List String :=
  h.getD r []

/-- `getRolePermissions(role)` in the reference model: the reference of
the stored array when the role is defined (`this.roleDefinitions[role]`),
or `none` standing for the fresh empty array of the `?? []` fallback. -/
def RbacRefs.getRolePermissionsRef (s : RbacRefs) (role : String) : Option Nat :=
  (s.roleDefs.find? (fun e => e.1 == role)).map (fun e => e.2)

/-- The contents a caller observes in the array returned by
`getRolePermissions`. -/
def RbacRefs.rolePerms (s : RbacRefs) (role : String) : List String :=
  match s.getRolePermissionsRef role with
  | some r => readArr s.heap r
  | none => []

/-- A caller executing `arr.push(x)` on an array it was handed: the write
goes through the shared heap; the resolver's own bindings are untouched. -/
def RbacRefs.pushThrough (s : RbacRefs) (r : Nat) (x : String) : RbacRefs :=
  { s with heap := s.heap.set r (readArr s.heap r ++ [x]) }

theorem readArr_set_self {h : List (List String)} {r : Nat} {v : List String}
    (hlen : r < h.length) : readArr (h.set r v) r = v := by
  induction h generalizing r with
  | nil => simp at hlen
  | cons a t ih =>
    cases r with
    | zero => rfl
    | succ n =>
      simp only [List.length_cons, Nat.succ_lt_succ_iff] at hlen
      simpa [List.set, readArr, List.getD] using ih hlen

/-- Claim C5 counterexample: on the state with role `a` bound to the
array reference `0` holding `[x]`, `getRolePermissions` hands back
reference `0` itself, and a push through that reference changes what the
resolver's `getRolePermissions` reports afterwards — the returned
collection is a live view, not a copy. -/
theorem getRolePermissions_copy_counterexample :
    RbacRefs.getRolePermissionsRef ⟨[("a", 0)], [["x"]]⟩ "a" = some 0 ∧
    RbacRefs.rolePerms (RbacRefs.pushThrough ⟨[("a", 0)], [["x"]]⟩ 0 "y") "a" ≠
      RbacRefs.rolePerms ⟨[("a", 0)], [["x"]]⟩ "a" := by
  exact ⟨rfl, by decide⟩

/-- Claim C5 amended: `getRolePermissions r` returns the stored permission
array itself when `r` is defined (a fresh empty array only when it is
not), so a push through the returned array is visible in every subsequent
query of that role. -/
theorem getRolePermissions_alias (s : RbacRefs) (role : String) (ref : Nat)
    (x : String) (href : s.getRolePermissionsRef role = some ref)
    (hlen : ref < s.heap.length) :
    (s.pushThrough ref x).rolePerms role = s.rolePerms role ++ [x] := by
  have h2 : (s.pushThrough ref x).getRolePermissionsRef role = some ref := href
  unfold RbacRefs.rolePerms
  rw [href, h2]
  exact readArr_set_self hlen

/-- Claim C5 amended witness: the aliasing fact at the concrete
one-role state. -/
theorem getRolePermissions_alias_witness :
    RbacRefs.rolePerms (RbacRefs.pushThrough ⟨[("a", 0)], [["x"]]⟩ 0 "y") "a" =
      RbacRefs.rolePerms ⟨[("a", 0)], [["x"]]⟩ "a" ++ ["y"] :=
  getRolePermissions_alias ⟨[("a", 0)], [["x"]]⟩ "a" 0 "y" rfl (by decide)

end RBAC
